import Mathlib

/-!
# Verification of the string case-conversion library (src/string/converters.ts)

Shallow embedding of the TypeScript source.  JS strings are modeled as
`List Char` (sequences of Unicode scalar values); the public API functions
wrap them in Lean `String`s (`String` in this toolchain is a structure
holding a `List Char`).  `String.prototype.toLowerCase`/`toUpperCase` are
modeled per character by core's `Char.toLower`/`Char.toUpper`, which agree
with JS on ASCII (the library's documented domain); JS regex classes
`[a-z]`, `[A-Z]`, `[0-9]` are exactly `Char.isLower`, `Char.isUpper`,
`Char.isDigit`.
-/

namespace CaseConv

/-- Model of JS `\s` for the ASCII range (space, tab, newline, carriage
return, vertical tab, form feed). -/
def isJsWhitespace (c : Char) : Bool :=
  c == ' ' || c == '\t' || c == '\n' || c == '\r' || c == '\x0b' || c == '\x0c'

/-- Model of JS `String.prototype.split` with a single-character separator
pattern: every occurrence of a character matching `p` is a delimiter, the
empty string splits to `[""]`, leading/trailing/adjacent delimiters yield
empty fragments. -/
def splitBy (p : Char → Bool) : List Char → List (List Char)
  | [] => [[]]
  | c :: rest =>
      if p c then [] :: splitBy p rest
      else (splitBy p rest).modifyHead (fun g => c :: g)

/-- Model of JS `Array.prototype.join(sep)`: `[] ↦ ""`, singleton is the
element itself, otherwise elements interleaved with `sep`. -/
def jsJoin (sep : List Char) : List (List Char) → List Char
  | [] => []
  | [t] => t
  | t1 :: t2 :: rest => t1 ++ sep ++ jsJoin sep (t2 :: rest)

/-- JS `String.prototype.toLowerCase`, ASCII model (per character). -/
def jsToLower (s : List Char) : List Char := s.map Char.toLower

/-- JS `String.prototype.toUpperCase`, ASCII model (per character). -/
def jsToUpper (s : List Char) : List Char := s.map Char.toUpper

/-- First regex pass of `tokenizeCamelPascal` in the source:
`str.replace(/([a-z0-9])([A-Z])/g, "$1 $2")`.  A global regex replace
scans left to right and resumes after each match, so the recursion
consumes both matched characters at once. -/
def replacePass1 : List Char → List Char
  | [] => []
  | [c] => [c]
  | c1 :: c2 :: rest =>
      if (c1.isLower || c1.isDigit) && c2.isUpper then
        c1 :: ' ' :: c2 :: replacePass1 rest
      else
        c1 :: replacePass1 (c2 :: rest)

/-- Second regex pass of `tokenizeCamelPascal` in the source:
`.replace(/([A-Z])([A-Z][a-z])/g, "$1 $2")`, again a global left-to-right
scan that resumes after the three matched characters. -/
def replacePass2 : List Char → List Char
  | c1 :: c2 :: c3 :: rest =>
      if c1.isUpper && c2.isUpper && c3.isLower then
        c1 :: ' ' :: c2 :: c3 :: replacePass2 rest
      else
        c1 :: replacePass2 (c2 :: c3 :: rest)
  | other => other

/-- Source `tokenizeCamelPascal`: the two boundary-inserting regex passes,
then `.split(/[\s]/)`, then `.map(s => s.toLowerCase())`. -/
def tokenizeCamelPascal (s : List Char) : List (List Char) :=
  (splitBy isJsWhitespace (replacePass2 (replacePass1 s))).map jsToLower

/-- Source `tokenizeSeparator`: `str.split(separator).map(s => s.toLowerCase())`. -/
def tokenizeSeparator (s : List Char) (sep : Char) : List (List Char) :=
  (splitBy (fun c => c == sep) s).map jsToLower

/-- Source `tokenizeFlat`: `[str.toLowerCase()]`. -/
def tokenizeFlat (s : List Char) : List (List Char) := [jsToLower s]

/-- Source per-word capitalization
`word.charAt(0).toUpperCase() + word.slice(1)` (empty word stays empty). -/
def capitalizeWord : List Char → List Char
  | [] => []
  | c :: rest => c.toUpper :: rest

/-- Source `toCamel`: index-aware map (first word as-is, later words
capitalized) followed by `.join("")`. -/
def toCamel (tokens : List (List Char)) : List Char :=
  (tokens.enum.map (fun p => if p.fst = 0 then p.snd else capitalizeWord p.snd)).flatten

/-- Source `toPascal`: capitalize every word, `.join("")`. -/
def toPascal (tokens : List (List Char)) : List Char :=
  (tokens.map capitalizeWord).flatten

/-- Source `toSnake`: `tokens.join("_")`. -/
def toSnake (tokens : List (List Char)) : List Char := jsJoin ['_'] tokens

/-- Source `toScreamingSnake`: `tokens.join("_").toUpperCase()`. -/
def toScreamingSnake (tokens : List (List Char)) : List Char :=
  jsToUpper (jsJoin ['_'] tokens)

/-- Source `toKebab`: `tokens.join("-")`. -/
def toKebab (tokens : List (List Char)) : List Char := jsJoin ['-'] tokens

/-- Source `toDot`: `tokens.join(".")`. -/
def toDot (tokens : List (List Char)) : List Char := jsJoin ['.'] tokens

/-- Source `toPath`: `tokens.join("/")`. -/
def toPath (tokens : List (List Char)) : List Char := jsJoin ['/'] tokens

/-- Source `toUpper`: `tokens.join("").toUpperCase()`. -/
def toUpper (tokens : List (List Char)) : List Char := jsToUpper (jsJoin [] tokens)

/-- Source `toLower`: `tokens.join("").toLowerCase()`. -/
def toLower (tokens : List (List Char)) : List Char := jsToLower (jsJoin [] tokens)

/-- The nine case styles (source `CaseType`, keys of `tokenizeByCase`). -/
inductive CaseType where
  | camel
  | pascal
  | snake
  | screaming
  | kebab
  | dot
  | path
  | upper
  | lower
deriving DecidableEq, Repr

/-- Source `tokenizeByCase` record. -/
def tokenizeByCase : CaseType → List Char → List (List Char)
  | .camel => tokenizeCamelPascal
  | .pascal => tokenizeCamelPascal
  | .snake => fun s => tokenizeSeparator s '_'
  | .screaming => fun s => tokenizeSeparator (jsToLower s) '_'
  | .kebab => fun s => tokenizeSeparator s '-'
  | .dot => fun s => tokenizeSeparator s '.'
  | .path => fun s => tokenizeSeparator s '/'
  | .upper => fun s => tokenizeFlat s
  | .lower => fun s => tokenizeFlat s

/-- Source `formatByCase` record. -/
def formatByCase : CaseType → List (List Char) → List Char
  | .camel => toCamel
  | .pascal => toPascal
  | .snake => toSnake
  | .screaming => toScreamingSnake
  | .kebab => toKebab
  | .dot => toDot
  | .path => toPath
  | .upper => toUpper
  | .lower => toLower

/-- Source `tokenize` helper. -/
def tokenize (input : List Char) (caseType : CaseType) : List (List Char) :=
  tokenizeByCase caseType input

/-- Source `format` helper. -/
def format (tokens : List (List Char)) (caseType : CaseType) : List Char :=
  formatByCase caseType tokens

/-- The source's `NullableString = string | null | undefined`: the two
distinct nullish forms are kept apart. -/
inductive NullableString where
  | str (s : String)
  | null
  | undefined
deriving DecidableEq, Repr

/-- Source `safeString`: `input ?? ""` (both nullish forms map to `""`). -/
def safeString : NullableString → String
  | .str s => s
  | .null => ""
  | .undefined => ""

/-- Source `createConverter`: normalize nullish, return `""` on the empty
(falsy) string, identity fast path when the styles coincide, otherwise
tokenize with the source style and format with the target style. -/
def createConverter (fromCase toCase : CaseType) (input : NullableString) : String :=
  let str := safeString input
  if str = "" then ""
  else if fromCase = toCase then str
  else String.mk (format (tokenize str.data fromCase) toCase)

/-- Generated export `camelToCamel` (identity pair of the factory). -/
def camelToCamel (input : NullableString) : String :=
  createConverter .camel .camel input

/-- Generated export `kebabToScreaming`. -/
def kebabToScreaming (input : NullableString) : String :=
  createConverter .kebab .screaming input

/-- Source export `camelToWords`. -/
def camelToWords (input : NullableString) : List String :=
  (tokenizeCamelPascal (safeString input).data).map String.mk

/-- Source export `pascalToWords`. -/
def pascalToWords (input : NullableString) : List String :=
  (tokenizeCamelPascal (safeString input).data).map String.mk

/-- Source export `snakeToWords`. -/
def snakeToWords (input : NullableString) : List String :=
  (tokenizeSeparator (safeString input).data '_').map String.mk

/-- Source export `screamingToWords`:
`tokenizeSeparator(safeString(input).toLowerCase(), "_")`. -/
def screamingToWords (input : NullableString) : List String :=
  (tokenizeSeparator (jsToLower (safeString input).data) '_').map String.mk

/-- Source export `kebabToWords`. -/
def kebabToWords (input : NullableString) : List String :=
  (tokenizeSeparator (safeString input).data '-').map String.mk

/-- Source export `dotToWords`. -/
def dotToWords (input : NullableString) : List String :=
  (tokenizeSeparator (safeString input).data '.').map String.mk

/-- Source export `pathToWords`. -/
def pathToWords (input : NullableString) : List String :=
  (tokenizeSeparator (safeString input).data '/').map String.mk

/-- Source export `upperToWords`. -/
def upperToWords (input : NullableString) : List String :=
  (tokenizeFlat (safeString input).data).map String.mk

/-- Source export `lowerToWords`. -/
def lowerToWords (input : NullableString) : List String :=
  (tokenizeFlat (safeString input).data).map String.mk

/-! ## Spec-side definitions

These are written from the specification's words, to be compared with the
source-derived definitions above. -/

/-- Spec §4.1 helper: does the remaining input start with a lowercase letter
(the lookahead of the acronym boundary rule)? -/
def headIsLower : List Char → Bool
  | [] => false
  | c :: _ => c.isLower

/-- Spec §4.1, camel/pascal boundary rules, read declaratively: a word
boundary falls between `c1` and `c2` when `c1` is lowercase-or-digit and
`c2` is uppercase, or when `c1` is uppercase and `c2` begins an
uppercase-then-lowercase pair. -/
def specBoundary (c1 c2 : Char) (rest : List Char) : Bool :=
  ((c1.isLower || c1.isDigit) && c2.isUpper) ||
    (c1.isUpper && c2.isUpper && headIsLower rest)

/-- Spec §4.1: insert a whitespace boundary between every adjacent pair of
characters at which `specBoundary` holds. -/
def specInsertBoundaries : List Char → List Char
  | [] => []
  | [c] => [c]
  | c1 :: c2 :: rest =>
      if specBoundary c1 c2 rest then c1 :: ' ' :: specInsertBoundaries (c2 :: rest)
      else c1 :: specInsertBoundaries (c2 :: rest)

/-- Spec §4.1 camel/pascal tokenizer, stated from the spec's words: insert
the declarative boundaries, split on whitespace, lowercase every fragment. -/
def specTokenizeCamelPascal (s : List Char) : List (List Char) :=
  (splitBy isJsWhitespace (specInsertBoundaries s)).map jsToLower

/-- Spec §8 `normalize`: nullish input maps to the empty string, every
string is left unchanged. -/
def normalize : NullableString → String
  | .str s => s
  | .null => ""
  | .undefined => ""

/-- Modelled from the spec: "return the trimmed input" — removal of leading
and trailing whitespace (the source has no trim call; this models the
spec's word "trimmed"). -/
def specTrim (s : List Char) : List Char :=
  ((s.dropWhile isJsWhitespace).reverse.dropWhile isJsWhitespace).reverse

/-- Spec §4.2: a token "capitalized (first character uppercased, rest
unchanged)". -/
def specCapitalize : List Char → List Char
  | [] => []
  | c :: rest => c.toUpper :: rest

/-- Spec §4.2 camel formatter, stated from the spec's words: first token
as-is, every subsequent token capitalized, concatenated with no
separator. -/
def specCamelFormat : List (List Char) → List Char
  | [] => []
  | t :: rest => t ++ (rest.map specCapitalize).flatten

/-- A lowercase alphanumeric character (ASCII lowercase letter or digit) —
the token alphabet of the round-trip property. -/
def isLowerAlnum (c : Char) : Prop :=
  (97 ≤ c.toNat ∧ c.toNat ≤ 122) ∨ (48 ≤ c.toNat ∧ c.toNat ≤ 57)

instance (c : Char) : Decidable (isLowerAlnum c) := by
  unfold isLowerAlnum
  infer_instance


/-! ## Character-level lemmas -/

theorem isUpper_iff (c : Char) : c.isUpper = true ↔ 65 ≤ c.toNat ∧ c.toNat ≤ 90 := by
  simp [Char.isUpper, UInt32.le_def, BitVec.le_def, Char.toNat, UInt32.toNat]

theorem isLower_iff (c : Char) : c.isLower = true ↔ 97 ≤ c.toNat ∧ c.toNat ≤ 122 := by
  simp [Char.isLower, UInt32.le_def, BitVec.le_def, Char.toNat, UInt32.toNat]

theorem isDigit_iff (c : Char) : c.isDigit = true ↔ 48 ≤ c.toNat ∧ c.toNat ≤ 57 := by
  simp [Char.isDigit, UInt32.le_def, BitVec.le_def, Char.toNat, UInt32.toNat]

theorem toNat_ofNat_valid {n : Nat} (h : n < 55296) : (Char.ofNat n).toNat = n := by
  rw [Char.ofNat, dif_pos (Or.inl h)]
  rfl

theorem toLower_of_not_upper {c : Char} (h : ¬(65 ≤ c.toNat ∧ c.toNat ≤ 90)) :
    c.toLower = c := by
  rw [Char.toLower, if_neg h]

theorem toUpper_of_not_lower {c : Char} (h : ¬(97 ≤ c.toNat ∧ c.toNat ≤ 122)) :
    c.toUpper = c := by
  rw [Char.toUpper, if_neg h]

theorem toNat_toLower_of_upper {c : Char} (h : 65 ≤ c.toNat ∧ c.toNat ≤ 90) :
    c.toLower.toNat = c.toNat + 32 := by
  rw [Char.toLower, if_pos h]
  exact toNat_ofNat_valid (by omega)

theorem toLower_toUpper_of_lower {c : Char} (h : 97 ≤ c.toNat ∧ c.toNat ≤ 122) :
    c.toUpper.toLower = c := by
  rw [Char.toUpper, if_pos h]
  have h2 : (Char.ofNat (c.toNat - 32)).toNat = c.toNat - 32 :=
    toNat_ofNat_valid (by omega)
  rw [Char.toLower, if_pos (by omega), h2]
  have h3 : c.toNat - 32 + 32 = c.toNat := by omega
  rw [h3, Char.ofNat_toNat]

theorem toLower_toLower (c : Char) : c.toLower.toLower = c.toLower := by
  by_cases h : 65 ≤ c.toNat ∧ c.toNat ≤ 90
  · exact toLower_of_not_upper (by rw [toNat_toLower_of_upper h]; omega)
  · rw [toLower_of_not_upper h, toLower_of_not_upper h]

theorem char_ne_of_toNat_ne {c d : Char} (h : c.toNat ≠ d.toNat) : c ≠ d :=
  fun he => h (by rw [he])

theorem toNat_underscore : ('_').toNat = 95 := by decide

theorem toLower_beq_underscore (c : Char) : (c.toLower == '_') = (c == '_') := by
  by_cases h : 65 ≤ c.toNat ∧ c.toNat ≤ 90
  · have h1 : c.toLower ≠ '_' :=
      char_ne_of_toNat_ne (by rw [toNat_toLower_of_upper h, toNat_underscore]; omega)
    have h2 : c ≠ '_' := char_ne_of_toNat_ne (by rw [toNat_underscore]; omega)
    rw [beq_eq_false_iff_ne.2 h1, beq_eq_false_iff_ne.2 h2]
  · rw [toLower_of_not_upper h]

theorem not_upper_of_lower_or_digit {c : Char} (h : (c.isLower || c.isDigit) = true) :
    c.isUpper = false := by
  rw [Bool.or_eq_true, isLower_iff, isDigit_iff] at h
  rw [Bool.eq_false_iff]
  intro hu
  rw [isUpper_iff] at hu
  omega

theorem not_lower_or_digit_of_upper {c : Char} (h : c.isUpper = true) :
    (c.isLower || c.isDigit) = false := by
  rw [isUpper_iff] at h
  rw [Bool.eq_false_iff]
  intro hu
  rw [Bool.or_eq_true, isLower_iff, isDigit_iff] at hu
  omega

theorem not_upper_of_is_lower {c : Char} (h : c.isLower = true) : c.isUpper = false := by
  rw [isLower_iff] at h
  rw [Bool.eq_false_iff]
  intro hu
  rw [isUpper_iff] at hu
  omega

/-! ## Lemmas about `splitBy` and `jsJoin` -/

theorem splitBy_ne_nil (p : Char → Bool) (l : List Char) : splitBy p l ≠ [] := by
  induction l with
  | nil => simp [splitBy]
  | cons c rest ih =>
      simp only [splitBy]
      split
      · simp
      · rcases h : splitBy p rest with _ | ⟨g, gs⟩
        · exact absurd h ih
        · simp

theorem splitBy_append {p : Char → Bool} {t : List Char} (h : ∀ c ∈ t, p c = false)
    (l : List Char) :
    splitBy p (t ++ l) = (splitBy p l).modifyHead (fun g => t ++ g) := by
  induction t with
  | nil =>
      simp only [List.nil_append]
      rcases splitBy p l with _ | ⟨g, gs⟩ <;> simp
  | cons c t ih =>
      have hc : p c = false := h c (by simp)
      have ht : ∀ x ∈ t, p x = false := fun x hx => h x (by simp [hx])
      rw [List.cons_append]
      simp only [splitBy]
      rw [if_neg (by simp [hc]), ih ht]
      rcases splitBy p l with _ | ⟨g, gs⟩ <;> simp

theorem splitBy_of_no_sep {p : Char → Bool} {t : List Char} (h : ∀ c ∈ t, p c = false) :
    splitBy p t = [t] := by
  have h2 := splitBy_append h []
  simpa [splitBy] using h2

theorem splitBy_jsJoin {p : Char → Bool} {sep : Char} (hsep : p sep = true) :
    ∀ ts : List (List Char), ts ≠ [] → (∀ t ∈ ts, ∀ c ∈ t, p c = false) →
      splitBy p (jsJoin [sep] ts) = ts := by
  intro ts
  induction ts with
  | nil => intro h; exact absurd rfl h
  | cons t1 rest ih =>
      intro _ hgood
      rcases rest with _ | ⟨t2, rest2⟩
      · exact splitBy_of_no_sep (hgood t1 (by simp))
      · have h1 : ∀ c ∈ t1, p c = false := hgood t1 (by simp)
        have hrest : ∀ t ∈ t2 :: rest2, ∀ c ∈ t, p c = false :=
          fun t htm => hgood t (by simp at htm ⊢; tauto)
        have hjoin : jsJoin [sep] (t1 :: t2 :: rest2) =
            t1 ++ (sep :: jsJoin [sep] (t2 :: rest2)) := by
          simp [jsJoin]
        rw [hjoin, splitBy_append h1, splitBy, if_pos hsep,
          ih (by simp) hrest]
        simp

theorem map_fixed {f : Char → Char} {l : List Char} (h : ∀ c ∈ l, f c = c) :
    l.map f = l := by
  induction l with
  | nil => rfl
  | cons c rest ih => simp [h c (by simp), ih (fun x hx => h x (by simp [hx]))]

theorem mem_jsJoin {sep : Char} {ts : List (List Char)} {c : Char}
    (h : c ∈ jsJoin [sep] ts) : c = sep ∨ ∃ t ∈ ts, c ∈ t := by
  induction ts with
  | nil => simp [jsJoin] at h
  | cons t1 rest ih =>
      rcases rest with _ | ⟨t2, rest2⟩
      · exact Or.inr ⟨t1, by simp, h⟩
      · have hjoin : jsJoin [sep] (t1 :: t2 :: rest2) =
            t1 ++ (sep :: jsJoin [sep] (t2 :: rest2)) := by simp [jsJoin]
        rw [hjoin, List.mem_append] at h
        rcases h with h | h
        · exact Or.inr ⟨t1, by simp, h⟩
        · rcases List.mem_cons.1 h with h | h
          · exact Or.inl h
          · rcases ih h with h | ⟨t, htm, hc⟩
            · exact Or.inl h
            · exact Or.inr ⟨t, by simp at htm ⊢; tauto, hc⟩

theorem splitBy_map {p : Char → Bool} {f : Char → Char} (hf : ∀ c, p (f c) = p c) :
    ∀ l : List Char, splitBy p (l.map f) = (splitBy p l).map (List.map f) := by
  intro l
  induction l with
  | nil => simp [splitBy]
  | cons c rest ih =>
      simp only [List.map_cons, splitBy, hf c]
      split
      · simp [ih]
      · rw [ih]
        rcases splitBy p rest with _ | ⟨g, gs⟩ <;> simp


/-! ## Equations for the regex passes -/

theorem replacePass1_cons_of_not {c : Char} (h : (c.isLower || c.isDigit) = false)
    (l : List Char) : replacePass1 (c :: l) = c :: replacePass1 l := by
  cases l with
  | nil => rfl
  | cons x t => simp [replacePass1, h]

theorem replacePass2_cons_of_not {c : Char} (h : c.isUpper = false)
    (l : List Char) : replacePass2 (c :: l) = c :: replacePass2 l := by
  match l with
  | [] => rfl
  | [x] => rfl
  | x :: y :: t => simp [replacePass2, h]

theorem replacePass1_head (c : Char) (l : List Char) :
    ∃ t, replacePass1 (c :: l) = c :: t := by
  cases l with
  | nil => exact ⟨[], rfl⟩
  | cons x t =>
      simp only [replacePass1]
      split
      · exact ⟨_, rfl⟩
      · exact ⟨_, rfl⟩

theorem space_not_upper : (' ').isUpper = false := by decide

theorem space_not_lower : (' ').isLower = false := by decide

/-- Core of the camel/pascal-tokenizer equivalence: the two sequential
global regex passes of the source compute exactly the declarative
boundary insertion described by the spec. -/
theorem replacePasses_eq_spec_aux :
    ∀ (n : Nat) (cs : List Char), cs.length ≤ n →
      replacePass2 (replacePass1 cs) = specInsertBoundaries cs := by
  intro n
  induction n with
  | zero =>
      intro cs h
      have : cs = [] := List.length_eq_zero.1 (Nat.le_zero.1 h)
      subst this
      rfl
  | succ n ih =>
      intro cs hlen
      match cs with
      | [] => rfl
      | [c] => rfl
      | c1 :: c2 :: rest =>
        by_cases h1 : ((c1.isLower || c1.isDigit) && c2.isUpper) = true
        · -- case A: the first regex matches (c1, c2)
          have h1c := h1
          rw [Bool.and_eq_true] at h1c
          obtain ⟨hc1LD, hc2U⟩ := h1c
          have hc1U : c1.isUpper = false := not_upper_of_lower_or_digit hc1LD
          have hc2LD : (c2.isLower || c2.isDigit) = false := not_lower_or_digit_of_upper hc2U
          have e1 : replacePass1 (c1 :: c2 :: rest) = c1 :: ' ' :: c2 :: replacePass1 rest := by
            simp [replacePass1, h1]
          have e2 : replacePass2 (c1 :: ' ' :: c2 :: replacePass1 rest) =
              c1 :: ' ' :: replacePass2 (c2 :: replacePass1 rest) := by
            rw [replacePass2_cons_of_not hc1U, replacePass2_cons_of_not space_not_upper]
          have e3 : c2 :: replacePass1 rest = replacePass1 (c2 :: rest) :=
            (replacePass1_cons_of_not hc2LD rest).symm
          have e4 : replacePass2 (replacePass1 (c2 :: rest)) = specInsertBoundaries (c2 :: rest) :=
            ih (c2 :: rest) (by simpa using Nat.le_of_succ_le_succ hlen)
          have e5 : specInsertBoundaries (c1 :: c2 :: rest) =
              c1 :: ' ' :: specInsertBoundaries (c2 :: rest) := by
            simp [specInsertBoundaries, specBoundary, h1]
          rw [e1, e2, e3, e4, e5]
        · -- case B: the first regex does not match (c1, c2)
          have e1 : replacePass1 (c1 :: c2 :: rest) = c1 :: replacePass1 (c2 :: rest) := by
            simp [replacePass1, h1]
          match rest with
          | [] =>
              -- two-character input: both passes and the spec leave it alone
              have eB : specBoundary c1 c2 [] = false := by
                simp only [specBoundary, headIsLower, Bool.and_false, Bool.or_false]
                exact Bool.eq_false_iff.mpr h1
              have e0 : replacePass1 [c1, c2] = [c1, c2] := by rw [e1]; rfl
              have eS : specInsertBoundaries [c1, c2] = [c1, c2] := by
                simp [specInsertBoundaries, eB]
              rw [e0, eS]
              rfl
          | c3 :: rest2 =>
            by_cases h2 : ((c2.isLower || c2.isDigit) && c3.isUpper) = true
            · -- B2a: the first regex matches (c2, c3)
              have h2c := h2
              rw [Bool.and_eq_true] at h2c
              obtain ⟨hc2LD, _⟩ := h2c
              have hc2U : c2.isUpper = false := not_upper_of_lower_or_digit hc2LD
              have e2 : replacePass1 (c2 :: c3 :: rest2) = c2 :: ' ' :: c3 :: replacePass1 rest2 := by
                simp [replacePass1, h2]
              have e3 : replacePass2 (c1 :: c2 :: ' ' :: c3 :: replacePass1 rest2) =
                  c1 :: replacePass2 (c2 :: ' ' :: c3 :: replacePass1 rest2) := by
                simp only [replacePass2, space_not_lower]
                rw [if_neg (by simp)]
              have e4 : replacePass2 (replacePass1 (c2 :: c3 :: rest2)) =
                  specInsertBoundaries (c2 :: c3 :: rest2) :=
                ih (c2 :: c3 :: rest2) (by simpa using Nat.le_of_succ_le_succ hlen)
              have e5 : specInsertBoundaries (c1 :: c2 :: c3 :: rest2) =
                  c1 :: specInsertBoundaries (c2 :: c3 :: rest2) := by
                have eB : specBoundary c1 c2 (c3 :: rest2) = false := by
                  simp [specBoundary, hc2U]
                simp [specInsertBoundaries, eB]
              rw [e1, e2, e3, ← e2, e4, e5]
            · -- B2b: neither (c1,c2) nor (c2,c3) matches the first regex
              have e2 : replacePass1 (c2 :: c3 :: rest2) = c2 :: replacePass1 (c3 :: rest2) := by
                simp [replacePass1, h2]
              obtain ⟨T, hT⟩ := replacePass1_head c3 rest2
              by_cases h3 : (c1.isUpper && c2.isUpper && c3.isLower) = true
              · -- B2b-i: the second regex matches (c1, c2, c3)
                have hc3L : c3.isLower = true := by
                  cases hcl : c3.isLower with
                  | false => rw [hcl, Bool.and_false] at h3; simp at h3
                  | true => rfl
                have hc3U : c3.isUpper = false := not_upper_of_is_lower hc3L
                have e3 : replacePass2 (c1 :: c2 :: c3 :: T) =
                    c1 :: ' ' :: c2 :: c3 :: replacePass2 T := by
                  simp [replacePass2, h3]
                have e4 : c3 :: replacePass2 T = replacePass2 (c3 :: T) :=
                  (replacePass2_cons_of_not hc3U T).symm
                have e5 : replacePass2 (replacePass1 (c3 :: rest2)) =
                    specInsertBoundaries (c3 :: rest2) :=
                  ih (c3 :: rest2) (by simp at hlen ⊢; omega)
                have e6 : specInsertBoundaries (c1 :: c2 :: c3 :: rest2) =
                    c1 :: ' ' :: specInsertBoundaries (c2 :: c3 :: rest2) := by
                  have eB : specBoundary c1 c2 (c3 :: rest2) = true := by
                    simp only [specBoundary, headIsLower]
                    simp [h3]
                  simp [specInsertBoundaries, eB]
                have e7 : specInsertBoundaries (c2 :: c3 :: rest2) =
                    c2 :: specInsertBoundaries (c3 :: rest2) := by
                  have eB : specBoundary c2 c3 rest2 = false := by
                    simp only [specBoundary, headIsLower]
                    simp [h2, hc3U]
                  simp [specInsertBoundaries, eB]
                rw [e1, e2, hT, e3, e6, e7]
                rw [e4, hT.symm, e5]
              · -- B2b-ii: no match at (c1, c2, c3)
                have e3 : replacePass2 (c1 :: c2 :: c3 :: T) =
                    c1 :: replacePass2 (c2 :: c3 :: T) := by
                  simp [replacePass2, h3]
                have e4 : replacePass2 (replacePass1 (c2 :: c3 :: rest2)) =
                    specInsertBoundaries (c2 :: c3 :: rest2) :=
                  ih (c2 :: c3 :: rest2) (by simpa using Nat.le_of_succ_le_succ hlen)
                have e5 : specInsertBoundaries (c1 :: c2 :: c3 :: rest2) =
                    c1 :: specInsertBoundaries (c2 :: c3 :: rest2) := by
                  have eB : specBoundary c1 c2 (c3 :: rest2) = false := by
                    simp only [specBoundary, headIsLower]
                    simp [h1, h3]
                  simp [specInsertBoundaries, eB]
                rw [e1, e2, hT, e3, ← hT, ← e2, e4, e5]

theorem replacePasses_eq_spec (cs : List Char) :
    replacePass2 (replacePass1 cs) = specInsertBoundaries cs :=
  replacePasses_eq_spec_aux cs.length cs (Nat.le_refl _)


/-! ## Round-trip support lemmas -/

theorem jsToLower_fixed_of_lowerAlnum {t : List Char} (h : ∀ c ∈ t, isLowerAlnum c) :
    jsToLower t = t :=
  map_fixed (fun c hc => toLower_of_not_upper (by rcases h c hc with h1 | h1 <;> omega))

theorem beq_sep_false_of_lowerAlnum {c sep : Char}
    (hsep : sep.toNat < 48 ∨ (90 < sep.toNat ∧ sep.toNat < 97)) (h : isLowerAlnum c) :
    (c == sep) = false :=
  beq_eq_false_iff_ne.2 (char_ne_of_toNat_ne (by rcases h with h1 | h1 <;> omega))

theorem map_jsToLower_fixed {ts : List (List Char)}
    (hgood : ∀ t ∈ ts, ∀ c ∈ t, isLowerAlnum c) : ts.map jsToLower = ts := by
  have h : ∀ t ∈ ts, jsToLower t = t :=
    fun t ht => jsToLower_fixed_of_lowerAlnum (hgood t ht)
  rw [List.map_congr_left h]
  exact List.map_id' ts

theorem tokenizeSeparator_jsJoin {sep : Char}
    (hsep : sep.toNat < 48 ∨ (90 < sep.toNat ∧ sep.toNat < 97))
    {ts : List (List Char)} (hne : ts ≠ [])
    (hgood : ∀ t ∈ ts, ∀ c ∈ t, isLowerAlnum c) :
    tokenizeSeparator (jsJoin [sep] ts) sep = ts := by
  unfold tokenizeSeparator
  rw [splitBy_jsJoin (by simp) ts hne
    (fun t ht c hc => beq_sep_false_of_lowerAlnum hsep (hgood t ht c hc))]
  exact map_jsToLower_fixed hgood

theorem jsToLower_jsToUpper_join {ts : List (List Char)}
    (hgood : ∀ t ∈ ts, ∀ c ∈ t, isLowerAlnum c) :
    jsToLower (jsToUpper (jsJoin ['_'] ts)) = jsJoin ['_'] ts := by
  unfold jsToLower jsToUpper
  rw [List.map_map]
  apply map_fixed
  intro c hc
  show c.toUpper.toLower = c
  rcases mem_jsJoin hc with h | ⟨t, ht, hct⟩
  · subst h; decide
  · rcases hgood t ht c hct with h1 | h1
    · exact toLower_toUpper_of_lower h1
    · rw [toUpper_of_not_lower (by omega), toLower_of_not_upper (by omega)]

/-! ## Lemmas about the camel formatter -/

theorem enumFrom_map_capitalize (f : (Nat × List Char) → List Char)
    (hf : f = fun p => if p.fst = 0 then p.snd else capitalizeWord p.snd) :
    ∀ (l : List (List Char)) (i : Nat), i ≠ 0 →
      (l.enumFrom i).map f = l.map capitalizeWord := by
  intro l
  induction l with
  | nil => intro i _; rfl
  | cons a as ih =>
      intro i hi
      rw [List.enumFrom_cons, List.map_cons, List.map_cons, ih (i + 1) (Nat.succ_ne_zero i)]
      subst hf
      simp [hi]

theorem toCamel_cons (t : List Char) (rest : List (List Char)) :
    toCamel (t :: rest) = t ++ (rest.map capitalizeWord).flatten := by
  unfold toCamel
  rw [List.enum_cons, List.map_cons,
    enumFrom_map_capitalize _ rfl rest 1 (Nat.succ_ne_zero 0)]
  simp

theorem capitalizeWord_eq_specCapitalize (w : List Char) :
    capitalizeWord w = specCapitalize w := by
  cases w <;> rfl

/-! ## Lemmas for the screaming/snake tokenizer equivalence -/

theorem jsToLower_jsToLower (t : List Char) : jsToLower (jsToLower t) = jsToLower t := by
  unfold jsToLower
  rw [List.map_map]
  exact List.map_congr_left (fun c _ => toLower_toLower c)

theorem tokenizeSeparator_lower_eq (s : List Char) :
    tokenizeSeparator (jsToLower s) '_' = tokenizeSeparator s '_' := by
  unfold tokenizeSeparator jsToLower
  rw [splitBy_map (fun c => toLower_beq_underscore c) s, List.map_map]
  apply List.map_congr_left
  intro t _
  show jsToLower (jsToLower t) = jsToLower t
  exact jsToLower_jsToLower t


/-! ## Claim theorems -/

/-- C1 (amended): for every separator-based style S in
{snake, screaming, kebab, dot, path} and every NONEMPTY token sequence
whose tokens contain only lowercase alphanumeric characters,
`tokenize (format tokens S) S = tokens`.  (The original claim, quantified
over every such token sequence, fails on the empty sequence — see the
counterexample.) -/
theorem c1_separator_roundtrip (S : CaseType)
    (hS : S = CaseType.snake ∨ S = CaseType.screaming ∨ S = CaseType.kebab ∨
      S = CaseType.dot ∨ S = CaseType.path)
    (ts : List (List Char)) (hne : ts ≠ [])
    (hgood : ∀ t ∈ ts, ∀ c ∈ t, isLowerAlnum c) :
    tokenize (format ts S) S = ts := by
  rcases hS with rfl | rfl | rfl | rfl | rfl
  · exact tokenizeSeparator_jsJoin (by decide) hne hgood
  · show tokenizeSeparator (jsToLower (jsToUpper (jsJoin ['_'] ts))) '_' = ts
    rw [jsToLower_jsToUpper_join hgood]
    exact tokenizeSeparator_jsJoin (by decide) hne hgood
  · exact tokenizeSeparator_jsJoin (by decide) hne hgood
  · exact tokenizeSeparator_jsJoin (by decide) hne hgood
  · exact tokenizeSeparator_jsJoin (by decide) hne hgood

/-- C1 witness: the round-trip theorem applied at the concrete token
sequence ["my", "var"] in kebab style. -/
theorem c1_separator_roundtrip_witness :
    tokenize (format [['m', 'y'], ['v', 'a', 'r']] CaseType.kebab) CaseType.kebab =
      [['m', 'y'], ['v', 'a', 'r']] :=
  c1_separator_roundtrip CaseType.kebab (Or.inr (Or.inr (Or.inl rfl)))
    [['m', 'y'], ['v', 'a', 'r']] (by decide) (by decide)

/-- C1 counterexample: the empty token sequence satisfies the claim's
hypothesis vacuously, yet tokenizing its formatted form (the empty
string) yields the single-empty-token sequence, not the empty
sequence. -/
theorem c1_separator_roundtrip_counterexample :
    format ([] : List (List Char)) CaseType.snake = [] ∧
    tokenize (format ([] : List (List Char)) CaseType.snake) CaseType.snake = [[]] ∧
    tokenize (format ([] : List (List Char)) CaseType.snake) CaseType.snake ≠
      ([] : List (List Char)) := by
  decide

/-- C2: the shared camel/pascal tokenizer of the source (two sequential
global regex replaces, whitespace split, lowercasing) computes, on every
input string, exactly the spec's description (declarative insertion of a
boundary between a lowercase-or-digit character and a following uppercase
character and between an uppercase character and a following
uppercase-then-lowercase pair, whitespace split, lowercasing). -/
theorem c2_camelPascal_tokenizer_eq_spec (s : List Char) :
    tokenizeCamelPascal s = specTokenizeCamelPascal s := by
  unfold tokenizeCamelPascal specTokenizeCamelPascal
  rw [replacePasses_eq_spec s]

/-- C3: for every ordered pair of the nine styles, the conversion function
returns the empty string on both nullish input forms (and, being a total
Lean function, never raises an error). -/
theorem c3_nullish_yields_empty (fromCase toCase : CaseType) :
    createConverter fromCase toCase NullableString.null = "" ∧
    createConverter fromCase toCase NullableString.undefined = "" :=
  ⟨rfl, rfl⟩

/-- C4: for every style S and every input (including both nullish forms),
converting from S to S returns `normalize` of the input, where `normalize`
maps nullish input to the empty string and leaves strings unchanged. -/
theorem c4_identity_eq_normalize (S : CaseType) (x : NullableString) :
    createConverter S S x = normalize x := by
  cases x with
  | str s => by_cases h : s = "" <;> simp [createConverter, normalize, safeString, h]
  | null => rfl
  | undefined => rfl

/-- C5 counterexample: the identity conversion does NOT trim; on the input
" x " (with surrounding whitespace) it returns " x " verbatim, which
differs from the trimmed form "x". -/
theorem c5_identity_trim_counterexample :
    camelToCamel (NullableString.str " x ") = " x " ∧
    specTrim (" x ").data = "x".data ∧
    camelToCamel (NullableString.str " x ") ≠ "x" := by
  decide

/-- C5 (amended): each of the nine identity conversion functions returns a
nonempty input string unchanged — verbatim, with no trimming (the
tokenize/format pipeline is bypassed). -/
theorem c5_identity_returns_input_verbatim (S : CaseType) (s : String) (h : s ≠ "") :
    createConverter S S (NullableString.str s) = s := by
  simp [createConverter, safeString, h]

/-- C5 witness: the amended theorem applied at camel style and the string
" x ", whose surrounding whitespace is preserved. -/
theorem c5_identity_returns_input_verbatim_witness :
    createConverter CaseType.camel CaseType.camel (NullableString.str " x ") = " x " :=
  c5_identity_returns_input_verbatim CaseType.camel " x " (by decide)

/-- C6: on token sequences whose tokens are already lowercase, the camel
formatter returns the first token as-is followed by every subsequent token
with its first character uppercased and the rest unchanged, concatenated
with no separator (the spec-side formatter `specCamelFormat`). -/
theorem c6_toCamel_eq_spec (ts : List (List Char))
    (hlow : ∀ t ∈ ts, jsToLower t = t) :
    toCamel ts = specCamelFormat ts := by
  cases ts with
  | nil => rfl
  | cons t rest =>
      rw [toCamel_cons]
      show _ = t ++ (rest.map specCapitalize).flatten
      rw [List.map_congr_left (fun w _ => capitalizeWord_eq_specCapitalize w)]

/-- C6 witness: the camel formatter applied to the lowercase tokens
["my", "var"] produces "myVar". -/
theorem c6_toCamel_eq_spec_witness :
    toCamel [['m', 'y'], ['v', 'a', 'r']] = specCamelFormat [['m', 'y'], ['v', 'a', 'r']] ∧
    toCamel [['m', 'y'], ['v', 'a', 'r']] = ['m', 'y', 'V', 'a', 'r'] :=
  ⟨c6_toCamel_eq_spec [['m', 'y'], ['v', 'a', 'r']] (by decide), by decide⟩

/-- C7: for S in {upper, lower}, the style-S tokenizer yields exactly one
token on every input — the whole string lowercased — so no word-boundary
information survives. -/
theorem c7_flat_tokenizer_single_token (s : List Char) :
    tokenize s CaseType.upper = [jsToLower s] ∧
    tokenize s CaseType.lower = [jsToLower s] :=
  ⟨rfl, rfl⟩

/-- C8: the kebab-to-screaming-snake conversion maps "my-var-name" to
"MY_VAR_NAME". -/
theorem c8_kebabToScreaming_example :
    kebabToScreaming (NullableString.str "my-var-name") = "MY_VAR_NAME" := by
  decide

/-- C9: every one of the nine public tokenizer functions yields the
single-empty-string-token sequence [""] on the empty string, on null and
on undefined (never the empty sequence, and — by totality — never an
error). -/
theorem c9_words_on_empty_and_nullish :
    (camelToWords (NullableString.str "") = [""] ∧
      camelToWords NullableString.null = [""] ∧
      camelToWords NullableString.undefined = [""]) ∧
    (pascalToWords (NullableString.str "") = [""] ∧
      pascalToWords NullableString.null = [""] ∧
      pascalToWords NullableString.undefined = [""]) ∧
    (snakeToWords (NullableString.str "") = [""] ∧
      snakeToWords NullableString.null = [""] ∧
      snakeToWords NullableString.undefined = [""]) ∧
    (screamingToWords (NullableString.str "") = [""] ∧
      screamingToWords NullableString.null = [""] ∧
      screamingToWords NullableString.undefined = [""]) ∧
    (kebabToWords (NullableString.str "") = [""] ∧
      kebabToWords NullableString.null = [""] ∧
      kebabToWords NullableString.undefined = [""]) ∧
    (dotToWords (NullableString.str "") = [""] ∧
      dotToWords NullableString.null = [""] ∧
      dotToWords NullableString.undefined = [""]) ∧
    (pathToWords (NullableString.str "") = [""] ∧
      pathToWords NullableString.null = [""] ∧
      pathToWords NullableString.undefined = [""]) ∧
    (upperToWords (NullableString.str "") = [""] ∧
      upperToWords NullableString.null = [""] ∧
      upperToWords NullableString.undefined = [""]) ∧
    (lowerToWords (NullableString.str "") = [""] ∧
      lowerToWords NullableString.null = [""] ∧
      lowerToWords NullableString.undefined = [""]) := by
  decide

/-- C10: the screaming-snake tokenizer (lowercase the whole string, then
split on "_") agrees with the snake tokenizer (split on "_", then
lowercase each fragment) on every nullable input. -/
theorem c10_screamingToWords_eq_snakeToWords (x : NullableString) :
    screamingToWords x = snakeToWords x := by
  unfold screamingToWords snakeToWords
  rw [tokenizeSeparator_lower_eq]

end CaseConv
